import Mathlib

/-!
Shallow embedding of the document knowledge base in
`modules/knowledge_base.py`: the chunker (`_chunk_text`), the document
loader (`load_document`), ingestion (`add_document`), similarity search
(`search`) over an exact-L2 flat vector index, and persistence
(`save_index` / `load_index`).

Texts are modelled as `List Char` (Python `str`), vectors as `List ℚ`
(exact stand-in for `float32`), the FAISS `IndexFlatL2` as the list of
stored vectors with its dimension, and the external collaborators
(sentence-transformer embedder, sanitizer, filesystem) as explicit
function / data parameters.
-/

/-- Python `str` as a list of characters. -/
abbrev Str := List Char

/-- An embedding vector (`float32[d]` idealised over `ℚ`). -/
abbrev Vec := List ℚ

/-- Chunk metadata dict `{"source", "page", "start", "end"}` built in
`_chunk_text`. -/
structure ChunkMeta where
  source : String
  page : ℕ
  start : ℕ
  endPos : ℕ
deriving DecidableEq, Repr

instance : Inhabited ChunkMeta := ⟨⟨"", 0, 0, 0⟩⟩

/-- `faiss.IndexFlatL2`: the dimension fixed at construction and the
append-only store of vectors. -/
structure FaissIndex where
  d : ℕ
  vecs : List Vec
deriving DecidableEq, Repr

/-- The mutable state of `KnowledgeBase`: `self.index`, `self.documents`,
`self.metadata`, `self.dimension`. -/
structure KnowledgeBase where
  index : Option FaissIndex
  documents : List Str
  metadata : List ChunkMeta
  dimension : Option ℕ
deriving DecidableEq, Repr

/-- A freshly constructed `KnowledgeBase` (after `__init__` / `release`). -/
def emptyKB : KnowledgeBase := ⟨none, [], [], none⟩

/-! ## Chunker (`_chunk_text`) -/

/-- `CHUNK_SIZE = 512`. -/
def CHUNK_SIZE : ℕ := 512

/-- `OVERLAP_SIZE = 50`. -/
def OVERLAP_SIZE : ℕ := 50

/-- The sentence-boundary characters searched for in `_chunk_text`. -/
def boundaryChars : List Char := ['.', '。', ';', '；', '!', '！', '?', '？', '\n']

/-- Python `str.strip()`: drop leading and trailing whitespace. -/
def pyStrip (s : Str) : Str :=
  ((s.dropWhile Char.isWhitespace).reverse.dropWhile Char.isWhitespace).reverse

/-- The boundary scan `for i in range(end, min(end+50, text_len))`:
starting at index `i` with `n` positions left to inspect, return `some (i+1)`
for the first `i` whose character is a boundary character, else `none`. -/
def scanBoundary (text : Str) : ℕ → ℕ → Option ℕ
  | _, 0 => none
  | i, n + 1 =>
    if text.getD i ' ' ∈ boundaryChars then some (i + 1)
    else scanBoundary text (i + 1) n

/-- The chunk end for a window starting at `start`:
`end = min(start + CHUNK_SIZE, text_len)`, then, when `end < text_len`,
extended to just past the first boundary character found within the next
50 characters. -/
def chunkEnd (text : Str) (start : ℕ) : ℕ :=
  let e0 := min (start + CHUNK_SIZE) text.length
  if e0 < text.length then
    (scanBoundary text e0 (min (e0 + 50) text.length - e0)).getD e0
  else e0

/-- The advance `start = end - OVERLAP_SIZE if (end - OVERLAP_SIZE) > start
else end` (Python's possibly-negative `end - OVERLAP_SIZE` compares `> start`
exactly as truncated ℕ subtraction does, since `start ≥ 0`). -/
def nextStart (text : Str) (start : ℕ) : ℕ :=
  if chunkEnd text start - OVERLAP_SIZE > start then chunkEnd text start - OVERLAP_SIZE
  else chunkEnd text start

/-- The `while start < text_len` loop of `_chunk_text`, with explicit fuel.
Each iteration computes the window, emits it when its stripped length
exceeds 20, and advances `start` (see `nextStart`). -/
def chunkGo (text : Str) (source : String) (page : ℕ) : ℕ → ℕ → List (Str × ChunkMeta)
  | 0, _ => []
  | fuel + 1, start =>
    if start < text.length then
      if 20 < (pyStrip ((text.drop start).take (chunkEnd text start - start))).length then
        ((text.drop start).take (chunkEnd text start - start),
          ⟨source, page, start, chunkEnd text start⟩) ::
          chunkGo text source page fuel (nextStart text start)
      else chunkGo text source page fuel (nextStart text start)
    else []

/-- `_chunk_text(text, source, page)`: empty/whitespace-only input yields no
chunks; otherwise the sensitive-word sanitizer is applied and the windowing
loop runs from offset 0. The sanitizer (`sensitive_filter.filter_text`, with
its regex fallback) is the external collaborator `sanitize`. -/
def chunkText (sanitize : Str → Str) (text : Str) (source : String) (page : ℕ) :
    List (Str × ChunkMeta) :=
  if pyStrip text = [] then []
  else
    let t := sanitize text
    chunkGo t source page t.length 0

/-! ## Document loader (`load_document`) -/

/-- `SUPPORTED_EXTENSIONS = {".pdf", ".txt", ".docx"}`. -/
def SUPPORTED_EXTENSIONS : List String := [".pdf", ".txt", ".docx"]

/-- `max_file_size = 50 * 1024 * 1024`. -/
def MAX_FILE_SIZE : ℕ := 50 * 1024 * 1024

/-- What the filesystem and format handlers yield for a path: its extension,
its size in bytes, whether the format handler raised, and on success the
extracted text units with their page numbers (a single page-0 unit for
`.txt`/`.docx`, one unit per extractable page for `.pdf`). -/
structure SrcFile where
  path : String
  ext : String
  size : ℕ
  extractOk : Bool
  units : List (Str × ℕ)

/-- `load_document(file_path)`: `none` models a nonexistent path (the
`os.path.exists` check fails). Unsupported extensions, oversized files and
handler exceptions all yield the empty chunk list; otherwise each extracted
unit is chunked and the results concatenated. -/
def load_document (sanitize : Str → Str) : Option SrcFile → List (Str × ChunkMeta)
  | none => []
  | some f =>
    if f.ext ∉ SUPPORTED_EXTENSIONS then []
    else if MAX_FILE_SIZE < f.size then []
    else if ¬ f.extractOk then []
    else (f.units.map fun u => chunkText sanitize u.1 f.path u.2).flatten

/-! ## Ingestion (`add_document`) -/

/-- `embeddings.shape[1]` of the batch returned by `model.encode`
(all rows of a numpy 2-D array have the same length). -/
def dimOf (vs : List Vec) : ℕ := (vs.head?.map List.length).getD 0

/-- The body of `add_document` after `load_document`: on an empty chunk
list, return unchanged; on the very first batch, create the index and seed
the parallel arrays; afterwards, reject a batch of mismatched dimension
unchanged, else append vectors, texts and metadata. `embed` is the external
`model.encode` collaborator. -/
def addChunks (kb : KnowledgeBase) (embed : List Str → List Vec)
    (chunks : List (Str × ChunkMeta)) : KnowledgeBase :=
  if chunks.isEmpty then kb
  else
    let texts := chunks.map Prod.fst
    let metas := chunks.map Prod.snd
    let embeddings := embed texts
    match kb.index with
    | none =>
      let d := dimOf embeddings
      { index := some ⟨d, embeddings⟩, documents := texts,
        metadata := metas, dimension := some d }
    | some idx =>
      if some (dimOf embeddings) ≠ kb.dimension then kb
      else
        { kb with index := some ⟨idx.d, idx.vecs ++ embeddings⟩,
                  documents := kb.documents ++ texts,
                  metadata := kb.metadata ++ metas }

/-- `add_document(file_path)` = loader ∘ ingestion. -/
def add_document (kb : KnowledgeBase) (embed : List Str → List Vec)
    (sanitize : Str → Str) (file : Option SrcFile) : KnowledgeBase :=
  addChunks kb embed (load_document sanitize file)

/-! ## Search (`search`) -/

/-- Squared Euclidean distance, the metric of `IndexFlatL2`. -/
def sqDist (u v : Vec) : ℚ := (List.zipWith (fun a b => (a - b) ^ 2) u v).sum

/-- The order in which the flat index reports neighbours: ascending
distance, ties in ascending id order. -/
def distLex (a b : ℕ × ℚ) : Prop := a.2 < b.2 ∨ (a.2 = b.2 ∧ a.1 ≤ b.1)

instance : DecidableRel distLex := fun a b => by unfold distLex; infer_instance

instance : IsTotal (ℕ × ℚ) distLex := by
  constructor
  intro a b
  unfold distLex
  rcases lt_trichotomy a.2 b.2 with h | h | h
  · exact Or.inl (Or.inl h)
  · rcases Nat.le_total a.1 b.1 with h1 | h1
    · exact Or.inl (Or.inr ⟨h, h1⟩)
    · exact Or.inr (Or.inr ⟨h.symm, h1⟩)
  · exact Or.inr (Or.inl h)

instance : IsTrans (ℕ × ℚ) distLex := by
  constructor
  intro a b c hab hbc
  unfold distLex at *
  rcases hab with h1 | ⟨h1, h1'⟩
  · rcases hbc with h2 | ⟨h2, _⟩
    · exact Or.inl (h1.trans h2)
    · exact Or.inl (h2 ▸ h1)
  · rcases hbc with h2 | ⟨h2, h2'⟩
    · exact Or.inl (h1 ▸ h2)
    · exact Or.inr ⟨h1.trans h2, h1'.trans h2'⟩

/-- `index.search(query, k)`: the `k` nearest stored vectors as
`(id, squared-distance)` pairs, in `distLex` order. -/
def faissSearch (vecs : List Vec) (q : Vec) (k : ℕ) : List (ℕ × ℚ) :=
  let pairs := (List.range vecs.length).map fun i => (i, sqDist q (vecs.getD i []))
  (pairs.insertionSort distLex).take k

/-- The comparator of the final sort of `search`, on the raw distances:
ascending distance, which is exactly descending similarity
(`score_lt_score_iff` below). -/
def byDist (a b : Str × ChunkMeta × ℚ) : Prop := a.2.2 ≤ b.2.2

instance : DecidableRel byDist := fun a b => by unfold byDist; infer_instance

/-- `search(query, top_k)` up to scoring: the path-injection guard, the
empty-index guard, `k = min(top_k, len(documents))`, the FAISS search, the
id-validity filter re-attaching `(text, metadata)`, and the final stable
sort. The code sorts by `similarity = exp(-distance/dimension)` descending;
since that score is strictly antitone in the distance (`score_lt_score_iff`
below), the comparator is ascending distance. Results carry the raw
distance; `searchScored` applies the score transform. -/
def search (kb : KnowledgeBase) (embedOne : Str → Vec) (query : Str)
    (top_k : ℕ) : List (Str × ChunkMeta × ℚ) :=
  if ['.', '.'] <:+: query ∨ ['/'] <:+: query then []
  else
    match kb.index with
    | none => []
    | some idx =>
      if kb.documents.isEmpty then []
      else if min top_k kb.documents.length = 0 then []
      else
        ((faissSearch idx.vecs (embedOne query)
            (min top_k kb.documents.length)).filterMap fun p =>
          if p.1 < kb.documents.length then
            some (kb.documents.getD p.1 [], kb.metadata.getD p.1 default, p.2)
          else none).insertionSort byDist

/-- `similarity = np.exp(-distance / self.dimension)`. -/
noncomputable def score (dim : ℕ) (dist : ℚ) : ℝ := Real.exp (-(dist : ℝ) / (dim : ℝ))

/-- `search` with each result carrying its similarity score, as returned to
the caller. -/
noncomputable def searchScored (kb : KnowledgeBase) (embedOne : Str → Vec)
    (query : Str) (top_k : ℕ) : List (Str × ChunkMeta × ℝ) :=
  (search kb embedOne query top_k).map fun r =>
    (r.1, r.2.1, score (kb.dimension.getD 0) r.2.2)

/-! ## Persistence (`save_index` / `load_index`) -/

/-- The outcome of reading one persisted artifact: the file is missing, or
present but unreadable (the read raises), or read successfully. -/
inductive ReadResult (α : Type) where
  | missing
  | corrupt
  | ok (val : α)
deriving DecidableEq

/-- The three co-located artifacts under one base path: the FAISS index
file, the `.docs.npy` file and the `.meta.npy` file. -/
structure Disk where
  indexFile : ReadResult FaissIndex
  docsFile : ReadResult (List Str)
  metaFile : ReadResult (List ChunkMeta)
deriving DecidableEq

/-- `Path.exists()` for an artifact. -/
def ReadResult.isPresent : ReadResult α → Bool
  | .missing => false
  | _ => true

/-- `load_index(index_path)`, returning the new state and the boolean
result. A nonexistent index path returns `False` untouched. Inside the
`try`: a failing `faiss.read_index` hits the `except` branch, which resets
`index`/`dimension` to `None`; a successful read sets them, then — only when
both companion artifacts exist — the docs and meta arrays are loaded in
sequence, each failure again resetting `index`/`dimension` while keeping
whatever assignments already happened. -/
def load_index (kb : KnowledgeBase) (disk : Disk) : KnowledgeBase × Bool :=
  match disk.indexFile with
  | .missing => (kb, false)
  | .corrupt => ({ kb with index := none, dimension := none }, false)
  | .ok idx =>
    let kb1 := { kb with index := some idx, dimension := some idx.d }
    match disk.docsFile, disk.metaFile with
    | .missing, _ => (kb1, true)
    | _, .missing => (kb1, true)
    | .corrupt, _ => ({ kb1 with index := none, dimension := none }, false)
    | .ok docs, .corrupt =>
      ({ kb1 with documents := docs, index := none, dimension := none }, false)
    | .ok docs, .ok meta =>
      ({ kb1 with documents := docs, metadata := meta }, true)

/-- `save_index(index_path)`: with no index it returns `False` having
written nothing (`none`); otherwise it writes the three artifacts
(successful write modelled, since a write failure persists nothing the
round-trip could read). -/
def save_index (kb : KnowledgeBase) : Option Disk :=
  match kb.index with
  | none => none
  | some idx => some ⟨.ok idx, .ok kb.documents, .ok kb.metadata⟩

/-! ## Corpus alignment invariant -/

/-- `index.ntotal`: the number of vectors stored (0 with no index). -/
def vecCount (kb : KnowledgeBase) : ℕ := (kb.index.map fun i => i.vecs.length).getD 0

/-- `len(documents) == len(metadata) == index vector count`. -/
def corpusAligned (kb : KnowledgeBase) : Prop :=
  kb.documents.length = kb.metadata.length ∧ kb.documents.length = vecCount kb

instance : DecidablePred corpusAligned := fun kb => by
  unfold corpusAligned; infer_instance

/-- One ingestion step preserves corpus alignment, for any embedder that
returns one vector per input text (the batch-encoder contract). -/
theorem addChunks_aligned (kb : KnowledgeBase) (embed : List Str → List Vec)
    (hembed : ∀ ts, (embed ts).length = ts.length)
    (chunks : List (Str × ChunkMeta)) (h : corpusAligned kb) :
    corpusAligned (addChunks kb embed chunks) := by
  obtain ⟨h1, h2⟩ := h
  cases chunks with
  | nil => exact ⟨h1, h2⟩
  | cons c cs =>
    obtain ⟨i, docs, meta, dim⟩ := kb
    have he : (embed ((c :: cs).map Prod.fst)).length = ((c :: cs).map Prod.fst).length :=
      hembed _
    simp only [corpusAligned, vecCount] at h1 h2 ⊢
    unfold addChunks
    simp only [List.isEmpty_cons, if_neg Bool.false_ne_true]
    cases i with
    | none =>
      dsimp only
      simp [hembed]
    | some idx =>
      dsimp only
      by_cases hd : some (dimOf (embed (List.map Prod.fst (c :: cs)))) ≠ dim
      · rw [if_pos hd]
        exact ⟨h1, h2⟩
      · rw [if_neg hd]
        simp at h2 he ⊢
        omega

/-! ## Theorems for the specification claims -/

/-- C1: for every sequence of `add_document` calls starting from an empty
knowledge base, after each call the number of stored chunk texts, the number
of stored metadata records and the index vector count coincide (any
intermediate point is the final state of a prefix of the call sequence;
rejected or chunkless calls leave the state unchanged, so the invariant
holds after every call, successful or not). -/
theorem spec_c1 (embed : List Str → List Vec) (sanitize : Str → Str)
    (hembed : ∀ ts, (embed ts).length = ts.length)
    (files : List (Option SrcFile)) :
    corpusAligned
      (files.foldl (fun kb f => add_document kb embed sanitize f) emptyKB) := by
  have key : ∀ (l : List (Option SrcFile)) (kb : KnowledgeBase), corpusAligned kb →
      corpusAligned (l.foldl (fun kb f => add_document kb embed sanitize f) kb) := by
    intro l
    induction l with
    | nil => intro kb h; exact h
    | cons f fs ih =>
      intro kb h
      exact ih _ (addChunks_aligned kb embed hembed _ h)
  exact key files emptyKB ⟨rfl, rfl⟩

/-- Witness for C1 at a concrete embedder and call list. -/
theorem spec_c1_witness :
    (∀ ts : List Str, ((fun ts : List Str => ts.map fun _ => ([1] : Vec)) ts).length
        = ts.length) ∧
    corpusAligned
      (([some ⟨"f.txt", ".txt", 0, true, [(List.replicate 30 'a', 0)]⟩, none]).foldl
        (fun kb f => add_document kb (fun ts => ts.map fun _ => ([1] : Vec))
          (fun t => t) f) emptyKB) :=
  ⟨fun ts => by simp,
   spec_c1 (fun ts => ts.map fun _ => ([1] : Vec)) (fun t => t)
     (fun ts => by simp) _⟩

/-- C4: with an index established at dimension `d1`, an `add_document` call
whose embedder returns a batch of a different dimension is rejected whole:
the state (index, texts, metadata, dimension) is left exactly as before, and
any subsequent search gives exactly what it gave before the call. -/
theorem spec_c4 (kb : KnowledgeBase) (idx : FaissIndex) (d1 : ℕ)
    (embed : List Str → List Vec) (sanitize : Str → Str) (file : Option SrcFile)
    (hidx : kb.index = some idx) (hdim : kb.dimension = some d1)
    (hmis : dimOf (embed ((load_document sanitize file).map Prod.fst)) ≠ d1) :
    add_document kb embed sanitize file = kb ∧
    ∀ (e2 : Str → Vec) (q : Str) (k : ℕ),
      search (add_document kb embed sanitize file) e2 q k = search kb e2 q k := by
  have hmain : add_document kb embed sanitize file = kb := by
    unfold add_document addChunks
    cases hc : load_document sanitize file with
    | nil => rfl
    | cons c cs =>
      rw [hc] at hmis
      have hcond : some (dimOf (embed (List.map Prod.fst (c :: cs)))) ≠ kb.dimension := by
        rw [hdim]
        exact fun hEq => hmis (Option.some_inj.mp hEq)
      simp only [List.isEmpty_cons, if_neg Bool.false_ne_true, hidx]
      rw [if_pos hcond]
  exact ⟨hmain, fun e2 q k => by rw [hmain]⟩

/-- Witness for C4: a dimension-1 index rejects a dimension-2 batch. -/
theorem spec_c4_witness :
    dimOf ((fun ts : List Str => ts.map fun _ => ([0, 0] : Vec))
      ((load_document (fun t => t)
        (some ⟨"f.txt", ".txt", 0, true, [(List.replicate 30 'a', 0)]⟩)).map
          Prod.fst)) ≠ 1 ∧
    add_document ⟨some ⟨1, [[0]]⟩, [['a']], [⟨"s", 0, 0, 1⟩], some 1⟩
      (fun ts => ts.map fun _ => ([0, 0] : Vec)) (fun t => t)
      (some ⟨"f.txt", ".txt", 0, true, [(List.replicate 30 'a', 0)]⟩) =
      ⟨some ⟨1, [[0]]⟩, [['a']], [⟨"s", 0, 0, 1⟩], some 1⟩ :=
  ⟨by decide,
   (spec_c4 ⟨some ⟨1, [[0]]⟩, [['a']], [⟨"s", 0, 0, 1⟩], some 1⟩ ⟨1, [[0]]⟩ 1
     (fun ts => ts.map fun _ => ([0, 0] : Vec)) (fun t => t)
     (some ⟨"f.txt", ".txt", 0, true, [(List.replicate 30 'a', 0)]⟩)
     rfl rfl (by decide)).1⟩

/-- C7: a query containing `".."` or `"/"` is rejected before anything else
happens: the result is empty for every knowledge-base state, and it does not
depend on the embedder (which is never invoked). -/
theorem spec_c7 (kb : KnowledgeBase) (e : Str → Vec) (q : Str) (k : ℕ)
    (h : ['.', '.'] <:+: q ∨ ['/'] <:+: q) :
    search kb e q k = [] ∧ ∀ e2 : Str → Vec, search kb e2 q k = [] := by
  constructor
  · unfold search; rw [if_pos h]
  · intro e2; unfold search; rw [if_pos h]

/-- Witness for C7: `search("../../etc/passwd", 3)` on a populated base. -/
theorem spec_c7_witness :
    (['.', '.'] <:+: ("../../etc/passwd".toList) ∨
      ['/'] <:+: ("../../etc/passwd".toList)) ∧
    search ⟨some ⟨1, [[0]]⟩, [['a']], [⟨"s", 0, 0, 1⟩], some 1⟩ (fun _ => [0])
      ("../../etc/passwd".toList) 3 = [] :=
  ⟨by decide,
   (spec_c7 ⟨some ⟨1, [[0]]⟩, [['a']], [⟨"s", 0, 0, 1⟩], some 1⟩ (fun _ => [0])
     ("../../etc/passwd".toList) 3 (by decide)).1⟩

/-- C5 counterexample: two failing loads on a populated base return
`False` but do NOT leave the in-memory state as it was. With a corrupt
index file the `except` branch resets `index` and `dimension` to `None`;
with a readable index and docs file but a corrupt meta file, `documents`
has additionally already been replaced by the loaded list. -/
theorem spec_c5_cex :
    ((load_index ⟨some ⟨1, [[0]]⟩, [['a']], [⟨"s", 0, 0, 1⟩], some 1⟩
        ⟨.corrupt, .missing, .missing⟩).2 = false ∧
      ¬ (load_index ⟨some ⟨1, [[0]]⟩, [['a']], [⟨"s", 0, 0, 1⟩], some 1⟩
        ⟨.corrupt, .missing, .missing⟩).1 =
        ⟨some ⟨1, [[0]]⟩, [['a']], [⟨"s", 0, 0, 1⟩], some 1⟩) ∧
    ((load_index ⟨some ⟨1, [[0]]⟩, [['a']], [⟨"s", 0, 0, 1⟩], some 1⟩
        ⟨.ok ⟨2, [[0], [1]]⟩, .ok [['x']], .corrupt⟩).2 = false ∧
      ¬ (load_index ⟨some ⟨1, [[0]]⟩, [['a']], [⟨"s", 0, 0, 1⟩], some 1⟩
        ⟨.ok ⟨2, [[0], [1]]⟩, .ok [['x']], .corrupt⟩).1 =
        ⟨some ⟨1, [[0]]⟩, [['a']], [⟨"s", 0, 0, 1⟩], some 1⟩) := by
  decide

/-- C5 amended: a `load_index` on a nonexistent index path returns false
and leaves the state exactly as it was. A call that fails reading an
artifact also returns false, but resets `index` and `dimension` to `None`
instead of preserving them: with a corrupt index file, or a corrupt docs
file while the meta file exists, documents and metadata are left as
before; when the docs file is read successfully and the meta file is then
corrupt, documents is replaced by the loaded list while metadata is left
as before. Each failing case's return value and full resulting state are
proved, not assumed. -/
theorem spec_c5_amended (kb : KnowledgeBase) (disk : Disk) :
    (disk.indexFile = ReadResult.missing → load_index kb disk = (kb, false)) ∧
    (disk.indexFile = ReadResult.corrupt →
      load_index kb disk = ({ kb with index := none, dimension := none }, false)) ∧
    (∀ idx, disk.indexFile = ReadResult.ok idx →
      disk.docsFile = ReadResult.corrupt → disk.metaFile ≠ ReadResult.missing →
      load_index kb disk = ({ kb with index := none, dimension := none }, false)) ∧
    (∀ idx docs, disk.indexFile = ReadResult.ok idx →
      disk.docsFile = ReadResult.ok docs → disk.metaFile = ReadResult.corrupt →
      load_index kb disk =
        ({ kb with documents := docs, index := none, dimension := none }, false)) := by
  obtain ⟨i, d, m⟩ := disk
  cases i <;> cases d <;> cases m <;> simp_all [load_index]

/-- Witness for C5 (amended): a missing path changes nothing, and a
corrupt meta file after a successful docs read yields the reset state with
the replaced documents. -/
theorem spec_c5_witness :
    load_index emptyKB ⟨.missing, .missing, .missing⟩ = (emptyKB, false) ∧
    load_index ⟨some ⟨1, [[0]]⟩, [['a']], [⟨"s", 0, 0, 1⟩], some 1⟩
        ⟨.ok ⟨2, [[0], [1]]⟩, .ok [['x']], .corrupt⟩ =
      (⟨none, [['x']], [⟨"s", 0, 0, 1⟩], none⟩, false) :=
  ⟨(spec_c5_amended emptyKB ⟨.missing, .missing, .missing⟩).1 rfl,
   (spec_c5_amended ⟨some ⟨1, [[0]]⟩, [['a']], [⟨"s", 0, 0, 1⟩], some 1⟩
       ⟨.ok ⟨2, [[0], [1]]⟩, .ok [['x']], .corrupt⟩).2.2.2
     ⟨2, [[0], [1]]⟩ [['x']] rfl rfl rfl⟩

/-- C2: saving a populated base and loading the artifacts into a fresh
instance returns true, reproduces the same texts and metadata in the same
order, and yields identical (raw and scored) search results for every
query, embedder and `top_k`. -/
theorem spec_c2 (kb : KnowledgeBase) (idx : FaissIndex)
    (hidx : kb.index = some idx) (hdim : kb.dimension = some idx.d) :
    ∃ disk, save_index kb = some disk ∧
      (load_index emptyKB disk).2 = true ∧
      (load_index emptyKB disk).1.documents = kb.documents ∧
      (load_index emptyKB disk).1.metadata = kb.metadata ∧
      ∀ (e : Str → Vec) (q : Str) (k : ℕ),
        search (load_index emptyKB disk).1 e q k = search kb e q k ∧
        searchScored (load_index emptyKB disk).1 e q k = searchScored kb e q k := by
  obtain ⟨i, d, m, dim⟩ := kb
  cases hidx
  cases hdim
  exact ⟨⟨.ok idx, .ok d, .ok m⟩, rfl, rfl, rfl, rfl, fun e q k => ⟨rfl, rfl⟩⟩

/-- Witness for C2 at a concrete populated base. -/
theorem spec_c2_witness :
    (⟨some ⟨1, [[0]]⟩, [['a']], [⟨"s", 0, 0, 1⟩], some 1⟩ :
        KnowledgeBase).index = some ⟨1, [[0]]⟩ ∧
    ∃ disk,
      save_index ⟨some ⟨1, [[0]]⟩, [['a']], [⟨"s", 0, 0, 1⟩], some 1⟩ = some disk ∧
      (load_index emptyKB disk).2 = true ∧
      (load_index emptyKB disk).1.documents =
        (⟨some ⟨1, [[0]]⟩, [['a']], [⟨"s", 0, 0, 1⟩], some 1⟩ :
          KnowledgeBase).documents ∧
      (load_index emptyKB disk).1.metadata =
        (⟨some ⟨1, [[0]]⟩, [['a']], [⟨"s", 0, 0, 1⟩], some 1⟩ :
          KnowledgeBase).metadata ∧
      ∀ (e : Str → Vec) (q : Str) (k : ℕ),
        search (load_index emptyKB disk).1 e q k =
          search ⟨some ⟨1, [[0]]⟩, [['a']], [⟨"s", 0, 0, 1⟩], some 1⟩ e q k ∧
        searchScored (load_index emptyKB disk).1 e q k =
          searchScored ⟨some ⟨1, [[0]]⟩, [['a']], [⟨"s", 0, 0, 1⟩], some 1⟩ e q k :=
  ⟨rfl, spec_c2 ⟨some ⟨1, [[0]]⟩, [['a']], [⟨"s", 0, 0, 1⟩], some 1⟩ ⟨1, [[0]]⟩
    rfl rfl⟩

/-- C10: an `add_document` call for which the loader yields no chunks —
nonexistent file, unsupported extension, oversized file, or a handler
failure — leaves every field of the knowledge base unchanged. -/
theorem spec_c10 (kb : KnowledgeBase) (embed : List Str → List Vec)
    (sanitize : Str → Str) (file : Option SrcFile) :
    (load_document sanitize file = [] → add_document kb embed sanitize file = kb) ∧
    (file = none → load_document sanitize file = []) ∧
    (∀ f, file = some f → f.ext ∉ SUPPORTED_EXTENSIONS →
      load_document sanitize file = []) ∧
    (∀ f, file = some f → MAX_FILE_SIZE < f.size →
      load_document sanitize file = []) ∧
    (∀ f, file = some f → f.extractOk = false →
      load_document sanitize file = []) := by
  refine ⟨?_, ?_, ?_, ?_, ?_⟩
  · intro h
    unfold add_document
    rw [h]
    rfl
  · intro h; rw [h]; rfl
  · intro f hf hc
    subst hf
    simp only [load_document]
    rw [if_pos hc]
  · intro f hf hs
    subst hf
    simp only [load_document]
    by_cases h1 : f.ext ∉ SUPPORTED_EXTENSIONS
    · rw [if_pos h1]
    · rw [if_neg h1, if_pos hs]
  · intro f hf he
    subst hf
    simp only [load_document]
    by_cases h1 : f.ext ∉ SUPPORTED_EXTENSIONS
    · rw [if_pos h1]
    · rw [if_neg h1]
      by_cases h2 : MAX_FILE_SIZE < f.size
      · rw [if_pos h2]
      · rw [if_neg h2, if_pos (show ¬ f.extractOk = true by simp [he])]

/-- Witness for C10 at a nonexistent path. -/
theorem spec_c10_witness :
    load_document (fun t => t) (none : Option SrcFile) = [] ∧
    add_document emptyKB (fun ts => ts.map fun _ => ([] : Vec)) (fun t => t)
      none = emptyKB :=
  ⟨rfl, (spec_c10 emptyKB (fun ts => ts.map fun _ => ([] : Vec)) (fun t => t)
    none).1 rfl⟩

/-! ## Chunker loop analysis (C9, C3) -/

/-- A successful boundary scan starting at `i` lands strictly past `i`. -/
theorem scanBoundary_lt (text : Str) :
    ∀ n i j, scanBoundary text i n = some j → i < j := by
  intro n
  induction n with
  | zero => intro i j h; exact absurd h (by simp [scanBoundary])
  | succ m ih =>
    intro i j h
    unfold scanBoundary at h
    split at h
    · cases h; exact Nat.lt_succ_self i
    · exact Nat.lt_of_succ_lt (ih (i + 1) j h)

/-- While the loop is running (`start < len`), the window end is strictly
past `start`. -/
theorem chunkEnd_gt (text : Str) (start : ℕ) (h : start < text.length) :
    start < chunkEnd text start := by
  have h0 : start < min (start + CHUNK_SIZE) text.length :=
    lt_min (Nat.lt_add_of_pos_right (by decide)) h
  unfold chunkEnd
  dsimp only
  split
  · cases hs : scanBoundary text (min (start + CHUNK_SIZE) text.length)
        (min (min (start + CHUNK_SIZE) text.length + 50) text.length -
          min (start + CHUNK_SIZE) text.length) with
    | none => simpa [hs] using h0
    | some j =>
      have hj := scanBoundary_lt text _ _ j hs
      exact h0.trans hj
  · exact h0

/-- While the loop is running, the advance moves `start` strictly forward. -/
theorem nextStart_gt (text : Str) (start : ℕ) (h : start < text.length) :
    start < nextStart text start := by
  unfold nextStart
  split
  · omega
  · exact chunkEnd_gt text start h

/-- Once `start` reaches the end of the text, the loop yields nothing, for
any fuel. -/
theorem chunkGo_stops (text : Str) (source : String) (page : ℕ) (fuel start : ℕ)
    (h : text.length ≤ start) : chunkGo text source page fuel start = [] := by
  cases fuel with
  | zero => rfl
  | succ f => unfold chunkGo; rw [if_neg (by omega)]

/-- Fuel-sufficiency: with at least `len - start` iterations of fuel
available the loop's answer no longer depends on the fuel — the loop
terminates within `text.length` iterations. -/
theorem chunkGo_fuel (text : Str) (source : String) (page : ℕ) :
    ∀ f1 f2 start, text.length - start ≤ f1 → text.length - start ≤ f2 →
      chunkGo text source page f1 start = chunkGo text source page f2 start := by
  intro f1
  induction f1 with
  | zero =>
    intro f2 start h1 h2
    have hs : text.length ≤ start := by omega
    rw [chunkGo_stops text source page 0 start hs,
      chunkGo_stops text source page f2 start hs]
  | succ k ih =>
    intro f2 start h1 h2
    by_cases hs : start < text.length
    · cases f2 with
      | zero => omega
      | succ m =>
        have hnext := nextStart_gt text start hs
        have hk : text.length - nextStart text start ≤ k := by omega
        have hm : text.length - nextStart text start ≤ m := by omega
        unfold chunkGo
        rw [if_pos hs, if_pos hs, ih m (nextStart text start) hk hm]
    · push_neg at hs
      rw [chunkGo_stops text source page (k + 1) start hs,
        chunkGo_stops text source page f2 start hs]

/-- C9: the chunking loop terminates on every input text. While the loop
runs, the window end and the advanced start offset strictly exceed the
current start, so with fuel `text.length - start` (hence with the
`text.length` fuel that `chunkText` supplies) the loop has fully
terminated: any additional fuel leaves the result unchanged. -/
theorem spec_c9 (text : Str) (source : String) (page : ℕ) :
    (∀ start, start < text.length →
      start < chunkEnd text start ∧ start < nextStart text start) ∧
    (∀ fuel start, text.length - start ≤ fuel →
      chunkGo text source page fuel start =
        chunkGo text source page (text.length - start) start) := by
  constructor
  · intro s hs
    exact ⟨chunkEnd_gt text s hs, nextStart_gt text s hs⟩
  · intro fuel s h
    exact chunkGo_fuel text source page fuel (text.length - s) s h le_rfl

/-- Witness for C9 on a concrete 1000-character text. -/
theorem spec_c9_witness :
    0 < chunkEnd (List.replicate 1000 'a') 0 ∧
    0 < nextStart (List.replicate 1000 'a') 0 ∧
    chunkGo (List.replicate 1000 'a') "doc.txt" 0 2000 0 =
      chunkGo (List.replicate 1000 'a') "doc.txt" 0 1000 0 := by
  have hlen : (List.replicate 1000 'a').length = 1000 := List.length_replicate 1000 'a'
  have h0 : 0 < (List.replicate 1000 'a').length := by rw [hlen]; norm_num
  refine ⟨((spec_c9 (List.replicate 1000 'a') "doc.txt" 0).1 0 h0).1,
    ((spec_c9 (List.replicate 1000 'a') "doc.txt" 0).1 0 h0).2, ?_⟩
  have h := (spec_c9 (List.replicate 1000 'a') "doc.txt" 0).2 2000 0
    (by rw [hlen]; norm_num)
  rw [hlen, Nat.sub_zero] at h
  exact h

/-- One unfolding of the chunking loop. -/
theorem chunkGo_succ (text : Str) (source : String) (page : ℕ) (fuel start : ℕ) :
    chunkGo text source page (fuel + 1) start =
      if start < text.length then
        if 20 < (pyStrip ((text.drop start).take (chunkEnd text start - start))).length then
          ((text.drop start).take (chunkEnd text start - start),
            ⟨source, page, start, chunkEnd text start⟩) ::
            chunkGo text source page fuel (nextStart text start)
        else chunkGo text source page fuel (nextStart text start)
      else [] := rfl

/-- An out-of-range `getD` lookup yields the default. -/
theorem getD_mem_or (l : Str) (i : ℕ) (d : Char) :
    l.getD i d ∈ l ∨ l.getD i d = d := by
  by_cases hi : i < l.length
  · left
    rw [List.getD_eq_getElem l d hi]
    exact List.getElem_mem hi
  · right
    exact List.getD_eq_default l d (by omega)

/-- On a text without boundary characters the boundary scan always fails. -/
theorem scanBoundary_none (text : Str) (hb : ∀ c ∈ text, c ∉ boundaryChars) :
    ∀ n i, scanBoundary text i n = none := by
  intro n
  induction n with
  | zero => intro i; rfl
  | succ m ih =>
    intro i
    have hc : text.getD i ' ' ∉ boundaryChars := by
      rcases getD_mem_or text i ' ' with h | h
      · exact hb _ h
      · rw [h]; decide
    unfold scanBoundary
    rw [if_neg hc]
    exact ih (i + 1)

/-- `str.strip()` is the identity on whitespace-free text. -/
theorem pyStrip_of_no_ws (l : Str) (hw : ∀ c ∈ l, ¬ c.isWhitespace) :
    pyStrip l = l := by
  unfold pyStrip
  have h1 : l.dropWhile Char.isWhitespace = l := by
    cases l with
    | nil => rfl
    | cons a as =>
      rw [List.dropWhile_cons, if_neg (hw a (List.mem_cons_self a as))]
  rw [h1]
  have h2 : l.reverse.dropWhile Char.isWhitespace = l.reverse := by
    cases hr : l.reverse with
    | nil => rfl
    | cons a as =>
      have ha : a ∈ l := by
        rw [← List.mem_reverse, hr]
        exact List.mem_cons_self a as
      rw [List.dropWhile_cons, if_neg (hw a ha)]
  rw [h2, List.reverse_reverse]

/-- Without boundary characters, the window end is the plain
`min(start+CHUNK_SIZE, len)` fallback. -/
theorem chunkEnd_no_boundary (text : Str) (hb : ∀ c ∈ text, c ∉ boundaryChars)
    (start : ℕ) : chunkEnd text start = min (start + CHUNK_SIZE) text.length := by
  unfold chunkEnd
  dsimp only
  split
  · rw [scanBoundary_none text hb]
    rfl
  · rfl

/-- Every character of a window of the text is a character of the text. -/
theorem no_ws_window (text : Str) (hw : ∀ c ∈ text, ¬ c.isWhitespace) (s n : ℕ) :
    ∀ c ∈ (text.drop s).take n, ¬ c.isWhitespace :=
  fun c hc =>
    hw c ((List.drop_sublist s text).subset ((List.take_sublist n _).subset hc))

/-- Stripped length of a window of whitespace-free text. -/
theorem strip_window_len (text : Str) (hw : ∀ c ∈ text, ¬ c.isWhitespace)
    (s n : ℕ) :
    (pyStrip ((text.drop s).take n)).length = min n (text.length - s) := by
  rw [pyStrip_of_no_ws _ (no_ws_window text hw s n), List.length_take,
    List.length_drop]

/-- The chunker on any 1000-character text without boundary characters or
whitespace: the loop runs the windows `[0,512)`, `[462,974)`, `[924,1000)`
and — because the advance from 924 is `1000 - 50 = 950 < 1000` — a fourth
window `[950,1000)`, each emitted since each strips to more than 20
characters. -/
theorem chunk_offsets_1000 (text : Str) (hlen : text.length = 1000)
    (hb : ∀ c ∈ text, c ∉ boundaryChars)
    (hw : ∀ c ∈ text, ¬ c.isWhitespace) :
    (chunkText (fun t => t) text "doc.txt" 0).map
        (fun c => (c.2.start, c.2.endPos)) =
      [(0, 512), (462, 974), (924, 1000), (950, 1000)] := by
  have e0 : chunkEnd text 0 = 512 := by
    rw [chunkEnd_no_boundary text hb, hlen]; decide
  have e462 : chunkEnd text 462 = 974 := by
    rw [chunkEnd_no_boundary text hb, hlen]; decide
  have e924 : chunkEnd text 924 = 1000 := by
    rw [chunkEnd_no_boundary text hb, hlen]; decide
  have e950 : chunkEnd text 950 = 1000 := by
    rw [chunkEnd_no_boundary text hb, hlen]; decide
  have n0 : nextStart text 0 = 462 := by unfold nextStart; rw [e0]; decide
  have n462 : nextStart text 462 = 924 := by unfold nextStart; rw [e462]; decide
  have n924 : nextStart text 924 = 950 := by unfold nextStart; rw [e924]; decide
  have n950 : nextStart text 950 = 1000 := by unfold nextStart; rw [e950]; decide
  have k0 : 20 < (pyStrip ((text.drop 0).take (chunkEnd text 0 - 0))).length := by
    rw [e0, strip_window_len text hw, hlen]; decide
  have k462 : 20 < (pyStrip ((text.drop 462).take (chunkEnd text 462 - 462))).length := by
    rw [e462, strip_window_len text hw, hlen]; decide
  have k924 : 20 < (pyStrip ((text.drop 924).take (chunkEnd text 924 - 924))).length := by
    rw [e924, strip_window_len text hw, hlen]; decide
  have k950 : 20 < (pyStrip ((text.drop 950).take (chunkEnd text 950 - 950))).length := by
    rw [e950, strip_window_len text hw, hlen]; decide
  have h950 : ∀ f : ℕ, chunkGo text "doc.txt" 0 (f + 1) 950 =
      [((text.drop 950).take 50, ⟨"doc.txt", 0, 950, 1000⟩)] := by
    intro f
    rw [chunkGo_succ, if_pos (show 950 < text.length by omega), if_pos k950, n950,
      e950, chunkGo_stops text "doc.txt" 0 f 1000 (le_of_eq hlen)]
  have h924 : ∀ f : ℕ, chunkGo text "doc.txt" 0 (f + 1 + 1) 924 =
      [((text.drop 924).take 76, ⟨"doc.txt", 0, 924, 1000⟩),
       ((text.drop 950).take 50, ⟨"doc.txt", 0, 950, 1000⟩)] := by
    intro f
    rw [chunkGo_succ, if_pos (show 924 < text.length by omega), if_pos k924, n924,
      e924, h950 f]
  have h462 : ∀ f : ℕ, chunkGo text "doc.txt" 0 (f + 1 + 1 + 1) 462 =
      [((text.drop 462).take 512, ⟨"doc.txt", 0, 462, 974⟩),
       ((text.drop 924).take 76, ⟨"doc.txt", 0, 924, 1000⟩),
       ((text.drop 950).take 50, ⟨"doc.txt", 0, 950, 1000⟩)] := by
    intro f
    rw [chunkGo_succ, if_pos (show 462 < text.length by omega), if_pos k462, n462,
      e462, h924 f]
  have h0 : ∀ f : ℕ, chunkGo text "doc.txt" 0 (f + 1 + 1 + 1 + 1) 0 =
      [((text.drop 0).take 512, ⟨"doc.txt", 0, 0, 512⟩),
       ((text.drop 462).take 512, ⟨"doc.txt", 0, 462, 974⟩),
       ((text.drop 924).take 76, ⟨"doc.txt", 0, 924, 1000⟩),
       ((text.drop 950).take 50, ⟨"doc.txt", 0, 950, 1000⟩)] := by
    intro f
    rw [chunkGo_succ, if_pos (show 0 < text.length by omega), if_pos k0, n0,
      e0, h462 f]
  have hne : ¬ pyStrip text = [] := by
    rw [pyStrip_of_no_ws text hw]
    intro hnil
    rw [hnil] at hlen
    simp at hlen
  unfold chunkText
  rw [if_neg hne]
  dsimp only
  rw [hlen,
    show chunkGo text "doc.txt" 0 1000 0 =
      chunkGo text "doc.txt" 0 (996 + 1 + 1 + 1 + 1) 0 from rfl,
    h0 996]
  rfl

/-- C3 counterexample: on the canonical 1000-character boundary-free ASCII
string (1000 repetitions of `'a'`) the chunker does NOT produce exactly the
three claimed offset windows — a fourth window `[950,1000)` is emitted,
because after the window ending at 1000 the advance sets
`start = 1000 - 50 = 950 < 1000` and the loop runs once more. -/
theorem spec_c3_cex :
    ¬ (chunkText (fun t => t) (List.replicate 1000 'a') "doc.txt" 0).map
        (fun c => (c.2.start, c.2.endPos)) = [(0, 512), (462, 974), (924, 1000)] := by
  have h := chunk_offsets_1000 (List.replicate 1000 'a')
    (List.length_replicate 1000 'a')
    (fun c hc => by rw [(List.mem_replicate.mp hc).2]; decide)
    (fun c hc => by rw [(List.mem_replicate.mp hc).2]; decide)
  rw [h]
  decide

/-- C3 amended: on a 1000-character ASCII string without sentence-boundary
characters (and without whitespace, so that no window is dropped by the
20-character minimum), the chunker produces exactly the four chunks with
character offsets `[0,512)`, `[462,974)`, `[924,1000)`, `[950,1000)`. -/
theorem spec_c3_amended (text : Str) (hlen : text.length = 1000)
    (hb : ∀ c ∈ text, c ∉ boundaryChars)
    (hw : ∀ c ∈ text, ¬ c.isWhitespace) :
    (chunkText (fun t => t) text "doc.txt" 0).map
        (fun c => (c.2.start, c.2.endPos)) =
      [(0, 512), (462, 974), (924, 1000), (950, 1000)] :=
  chunk_offsets_1000 text hlen hb hw

/-- Witness for C3 (amended) at 1000 repetitions of `'a'`. -/
theorem spec_c3_witness :
    (List.replicate 1000 'a').length = 1000 ∧
    (chunkText (fun t => t) (List.replicate 1000 'a') "doc.txt" 0).map
        (fun c => (c.2.start, c.2.endPos)) =
      [(0, 512), (462, 974), (924, 1000), (950, 1000)] :=
  ⟨List.length_replicate 1000 'a',
   spec_c3_amended (List.replicate 1000 'a') (List.length_replicate 1000 'a')
     (fun c hc => by rw [(List.mem_replicate.mp hc).2]; decide)
     (fun c hc => by rw [(List.mem_replicate.mp hc).2]; decide)⟩

/-! ## Search analysis (C6, C8) -/

/-- The similarity score is strictly positive (`exp` is). -/
theorem score_pos (dim : ℕ) (d : ℚ) : 0 < score dim d := Real.exp_pos _

/-- The similarity score of a nonnegative distance is at most 1. -/
theorem score_le_one (dim : ℕ) (d : ℚ) (hd : 0 ≤ d) : score dim d ≤ 1 := by
  unfold score
  rw [Real.exp_le_one_iff, neg_div]
  have h1 : (0 : ℝ) ≤ (d : ℝ) := by exact_mod_cast hd
  have h2 : (0 : ℝ) ≤ (dim : ℝ) := Nat.cast_nonneg dim
  have h3 := div_nonneg h1 h2
  linarith

/-- The similarity score is monotonically decreasing in the distance. -/
theorem score_anti (dim : ℕ) (d1 d2 : ℚ) (h : d1 ≤ d2) :
    score dim d2 ≤ score dim d1 := by
  unfold score
  rw [Real.exp_le_exp]
  rcases Nat.eq_zero_or_pos dim with h0 | hpos
  · simp [h0]
  · have hc : (0 : ℝ) < (dim : ℝ) := by exact_mod_cast hpos
    rw [div_le_div_iff_of_pos_right hc]
    have hcast : (d1 : ℝ) ≤ (d2 : ℝ) := by exact_mod_cast h
    linarith

/-- With a positive dimension the score transform is strictly antitone, so
sorting descending by score is exactly sorting ascending by distance. -/
theorem score_lt_score_iff (dim : ℕ) (hd : 0 < dim) (d1 d2 : ℚ) :
    score dim d1 < score dim d2 ↔ d2 < d1 := by
  unfold score
  rw [Real.exp_lt_exp]
  have hc : (0 : ℝ) < (dim : ℝ) := by exact_mod_cast hd
  rw [div_lt_div_iff_of_pos_right hc, neg_lt_neg_iff]
  exact_mod_cast Iff.rfl

/-- Squared Euclidean distances are nonnegative. -/
theorem sqDist_nonneg : ∀ u v : Vec, 0 ≤ sqDist u v := by
  intro u
  induction u with
  | nil => intro v; simp [sqDist]
  | cons a as ih =>
    intro v
    cases v with
    | nil => simp [sqDist]
    | cons b bs =>
      have h1 := ih bs
      simp only [sqDist, List.zipWith_cons_cons, List.sum_cons] at h1 ⊢
      have h2 : (0 : ℚ) ≤ (a - b) ^ 2 := sq_nonneg _
      linarith

/-- The id-validity-guarded `filterMap` of `search` is a plain `map` when
every id is in range. -/
theorem filterMap_reattach_eq_map (docs : List Str) (meta : List ChunkMeta) :
    ∀ l : List (ℕ × ℚ), (∀ p ∈ l, p.1 < docs.length) →
    (l.filterMap fun p =>
      if p.1 < docs.length then some (docs.getD p.1 [], meta.getD p.1 default, p.2)
      else none) =
    l.map fun p => (docs.getD p.1 [], meta.getD p.1 default, p.2) := by
  intro l
  induction l with
  | nil => intro _; rfl
  | cons a as ih =>
    intro h
    rw [List.filterMap_cons, List.map_cons]
    rw [if_pos (h a (List.mem_cons_self a as))]
    dsimp only
    rw [ih fun x hx => h x (List.mem_cons_of_mem a hx)]

/-- Every pair reported by the index search is a valid id together with the
squared distance from the query to the stored vector with that id. -/
theorem faissSearch_mem (vecs : List Vec) (q : Vec) (k : ℕ) (p : ℕ × ℚ)
    (hp : p ∈ faissSearch vecs q k) :
    p.1 < vecs.length ∧ p.2 = sqDist q (vecs.getD p.1 []) := by
  unfold faissSearch at hp
  have h1 : p ∈ (List.range vecs.length).map
      (fun i => (i, sqDist q (vecs.getD i []))) :=
    (List.perm_insertionSort distLex _).subset ((List.take_sublist k _).subset hp)
  obtain ⟨i, hi, hpe⟩ := List.mem_map.mp h1
  cases hpe
  exact ⟨List.mem_range.mp hi, rfl⟩

/-- With `k` at least the vector count, the index search returns every
stored vector exactly once, in `distLex` order. -/
theorem faissSearch_all (vecs : List Vec) (q : Vec) (k : ℕ)
    (hk : vecs.length ≤ k) :
    (faissSearch vecs q k).length = vecs.length := by
  unfold faissSearch
  have hlen : (((List.range vecs.length).map
      fun i => (i, sqDist q (vecs.getD i []))).insertionSort distLex).length
      = vecs.length := by
    rw [(List.perm_insertionSort distLex _).length_eq, List.length_map,
      List.length_range]
  rw [List.take_of_length_le (by rw [hlen]; exact hk), hlen]

/-- The index search output is `distLex`-sorted. -/
theorem faissSearch_sorted (vecs : List Vec) (q : Vec) (k : ℕ) :
    List.Sorted distLex (faissSearch vecs q k) :=
  List.Pairwise.sublist (List.take_sublist k _)
    (List.sorted_insertionSort distLex _)

/-- `distLex` implies ascending distance. -/
theorem distLex_le (a b : ℕ × ℚ) (h : distLex a b) : a.2 ≤ b.2 := by
  rcases h with h | ⟨h, _⟩
  · exact le_of_lt h
  · exact le_of_eq h

/-- C6: on a populated base (index aligned with the corpus), a valid query
with `top_k` larger than the corpus size `n` returns exactly `n` results:
the reattached index output itself, in ascending distance order with ties in
ascending id order (`faissSearch` is `distLex`-sorted), which is descending
similarity order. -/
theorem spec_c6 (kb : KnowledgeBase) (idx : FaissIndex) (e : Str → Vec)
    (q : Str) (top_k : ℕ)
    (hidx : kb.index = some idx)
    (hn : idx.vecs.length = kb.documents.length)
    (hne : kb.documents ≠ [])
    (hq1 : ¬ ['.', '.'] <:+: q) (hq2 : ¬ ['/'] <:+: q)
    (hk : kb.documents.length < top_k) :
    search kb e q top_k =
      (faissSearch idx.vecs (e q) kb.documents.length).map
        (fun p => (kb.documents.getD p.1 [], kb.metadata.getD p.1 default, p.2)) ∧
    (search kb e q top_k).length = kb.documents.length ∧
    List.Sorted byDist (search kb e q top_k) ∧
    List.Sorted (fun a b => score (kb.dimension.getD 0) b.2.2 ≤
      score (kb.dimension.getD 0) a.2.2) (search kb e q top_k) := by
  have hmin : min top_k kb.documents.length = kb.documents.length :=
    Nat.min_eq_right (Nat.le_of_lt hk)
  have hkpos : ¬ min top_k kb.documents.length = 0 := by
    rw [hmin]
    exact fun h => hne (List.length_eq_zero.mp h)
  have hvalid : ∀ p ∈ faissSearch idx.vecs (e q) kb.documents.length,
      p.1 < kb.documents.length :=
    fun p hp => hn ▸ (faissSearch_mem idx.vecs (e q) _ p hp).1
  have hsorted : List.Sorted byDist
      ((faissSearch idx.vecs (e q) kb.documents.length).map
        fun p => (kb.documents.getD p.1 [], kb.metadata.getD p.1 default, p.2)) :=
    List.Pairwise.map _ (fun a b hab => distLex_le a b hab)
      (faissSearch_sorted idx.vecs (e q) kb.documents.length)
  have heq : search kb e q top_k =
      (faissSearch idx.vecs (e q) kb.documents.length).map
        fun p => (kb.documents.getD p.1 [], kb.metadata.getD p.1 default, p.2) := by
    unfold search
    rw [if_neg (not_or.mpr ⟨hq1, hq2⟩), hidx]
    dsimp only
    rw [if_neg (fun h => hne (List.isEmpty_iff.mp h)), if_neg hkpos, hmin,
      filterMap_reattach_eq_map kb.documents kb.metadata _ hvalid,
      hsorted.insertionSort_eq]
  refine ⟨heq, ?_, ?_, ?_⟩
  · rw [heq, List.length_map,
      faissSearch_all idx.vecs (e q) kb.documents.length (le_of_eq hn), hn]
  · rw [heq]
    exact hsorted
  · rw [heq]
    exact hsorted.imp fun hab => score_anti (kb.dimension.getD 0) _ _ hab

/-- Witness for C6: three stored vectors, `top_k = 5`. -/
theorem spec_c6_witness :
    ([['a'], ['b'], ['c']] : List Str) ≠ [] ∧ (3 : ℕ) < 5 ∧
    (search ⟨some ⟨1, [[0], [3], [1]]⟩, [['a'], ['b'], ['c']],
        [⟨"s", 0, 0, 1⟩, ⟨"s", 0, 1, 2⟩, ⟨"s", 0, 2, 3⟩], some 1⟩
      (fun _ => [0]) ['q'] 5).length = 3 ∧
    List.Sorted byDist (search ⟨some ⟨1, [[0], [3], [1]]⟩, [['a'], ['b'], ['c']],
        [⟨"s", 0, 0, 1⟩, ⟨"s", 0, 1, 2⟩, ⟨"s", 0, 2, 3⟩], some 1⟩
      (fun _ => [0]) ['q'] 5) := by
  have h := spec_c6 ⟨some ⟨1, [[0], [3], [1]]⟩, [['a'], ['b'], ['c']],
      [⟨"s", 0, 0, 1⟩, ⟨"s", 0, 1, 2⟩, ⟨"s", 0, 2, 3⟩], some 1⟩
    ⟨1, [[0], [3], [1]]⟩ (fun _ => [0]) ['q'] 5 rfl rfl (by decide) (by decide)
    (by decide) (by decide)
  exact ⟨by decide, by decide, h.2.1, h.2.2.1⟩

/-- Every result of `search` carries as its ℚ payload the squared distance
from the query embedding to one of the stored vectors. -/
theorem search_dist_mem (kb : KnowledgeBase) (e : Str → Vec) (q : Str)
    (top_k : ℕ) (r : Str × ChunkMeta × ℚ) (hr : r ∈ search kb e q top_k) :
    ∃ idx, kb.index = some idx ∧ ∃ i, i < idx.vecs.length ∧
      r.2.2 = sqDist (e q) (idx.vecs.getD i []) := by
  unfold search at hr
  by_cases hg : ['.', '.'] <:+: q ∨ ['/'] <:+: q
  · rw [if_pos hg] at hr
    simp at hr
  · rw [if_neg hg] at hr
    cases hi : kb.index with
    | none =>
      rw [hi] at hr
      simp at hr
    | some idx =>
      rw [hi] at hr
      dsimp only at hr
      by_cases hemp : kb.documents.isEmpty
      · rw [if_pos hemp] at hr
        simp at hr
      · rw [if_neg hemp] at hr
        by_cases hz : min top_k kb.documents.length = 0
        · rw [if_pos hz] at hr
          simp at hr
        · rw [if_neg hz] at hr
          rw [(List.perm_insertionSort byDist _).mem_iff] at hr
          obtain ⟨p, hp, hpr⟩ := List.mem_filterMap.mp hr
          by_cases hpi : p.1 < kb.documents.length
          · rw [if_pos hpi] at hpr
            obtain ⟨hlt, hd⟩ := faissSearch_mem idx.vecs (e q) _ p hp
            obtain rfl := Option.some_inj.mp hpr
            exact ⟨idx, rfl, p.1, hlt, hd⟩
          · rw [if_neg hpi] at hpr
            cases hpr

/-- C8: every result of the scored search carries `exp(-distance/d)` for
the squared distance reported by the index, a score strictly positive and
at most 1; and the score transform is monotonically decreasing in the
distance. -/
theorem spec_c8 (kb : KnowledgeBase) (e : Str → Vec) (q : Str) (top_k : ℕ)
    (r : Str × ChunkMeta × ℝ) (hr : r ∈ searchScored kb e q top_k) :
    (∃ dist : ℚ, 0 ≤ dist ∧ r.2.2 = score (kb.dimension.getD 0) dist ∧
      ∃ idx, kb.index = some idx ∧ ∃ i, i < idx.vecs.length ∧
        dist = sqDist (e q) (idx.vecs.getD i [])) ∧
    0 < r.2.2 ∧ r.2.2 ≤ 1 ∧
    ∀ d1 d2 : ℚ, d1 ≤ d2 →
      score (kb.dimension.getD 0) d2 ≤ score (kb.dimension.getD 0) d1 := by
  unfold searchScored at hr
  obtain ⟨r0, hr0, rfl⟩ := List.mem_map.mp hr
  obtain ⟨idx, hidx, i, hi, hdist⟩ := search_dist_mem kb e q top_k r0 hr0
  have hnn : 0 ≤ r0.2.2 := by
    rw [hdist]
    exact sqDist_nonneg _ _
  exact ⟨⟨r0.2.2, hnn, rfl, idx, hidx, i, hi, hdist⟩,
    score_pos _ _, score_le_one _ _ hnn,
    fun d1 d2 h => score_anti _ d1 d2 h⟩

/-- Witness for C8: a one-vector base where the query hits the stored
vector, at squared distance `sqDist [0] [0]`. -/
theorem spec_c8_witness :
    ((['a'], (⟨"s", 0, 0, 1⟩ : ChunkMeta), score 1 (sqDist [0] [0])) ∈
      searchScored ⟨some ⟨1, [[0]]⟩, [['a']], [⟨"s", 0, 0, 1⟩], some 1⟩
        (fun _ => [0]) ['q'] 1) ∧
    0 < score 1 (sqDist [0] [0]) ∧ score 1 (sqDist [0] [0]) ≤ 1 := by
  have hmem : (['a'], (⟨"s", 0, 0, 1⟩ : ChunkMeta), score 1 (sqDist [0] [0])) ∈
      searchScored ⟨some ⟨1, [[0]]⟩, [['a']], [⟨"s", 0, 0, 1⟩], some 1⟩
        (fun _ => [0]) ['q'] 1 := by
    unfold searchScored
    rw [show search ⟨some ⟨1, [[0]]⟩, [['a']], [⟨"s", 0, 0, 1⟩], some 1⟩
        (fun _ => [0]) ['q'] 1 = [(['a'], ⟨"s", 0, 0, 1⟩, sqDist [0] [0])] from rfl]
    exact List.mem_singleton.mpr rfl
  have h := spec_c8 ⟨some ⟨1, [[0]]⟩, [['a']], [⟨"s", 0, 0, 1⟩], some 1⟩
    (fun _ => [0]) ['q'] 1 (['a'], ⟨"s", 0, 0, 1⟩, score 1 (sqDist [0] [0])) hmem
  exact ⟨hmem, h.2.1, h.2.2.1⟩
